import Mathlib

/-!
Shallow embedding of the single-file SQLite task manager
(`python_simple_task_manager_(sqlite).py`).

The `tasks` table is modelled as a list of rows together with the
`sqlite_sequence` counter that SQLite keeps for an
`INTEGER PRIMARY KEY AUTOINCREMENT` column.  Each storage operation of the
source (`add_task`, `view_tasks`, `complete_task`, `delete_task`,
`create_table`) becomes a Lean function on that state; an operation that
inspects `cursor.rowcount` additionally returns that count.  SQLite's
documented behaviour is followed: for `UPDATE`, `rowcount` counts the rows
matched by the `WHERE` clause (a row counts even when the new value equals
the old one); for `DELETE` it counts the deleted rows; `ORDER BY ... ASC`
sorts `NULL` before every non-`NULL` value.

The two input validators (`get_valid_date_input`,
`get_valid_task_id_input`) are modelled over the ASCII fragment of
Python: `datetime.strptime(s, "%Y-%m-%d")` via the regular expressions of
`_strptime.py` (`%Y` is exactly four digits, `%m` one or two digits valued
1..12, `%d` one or two digits valued 1..31, followed by the calendar check
of `datetime`), and `int(s)` with its sign and underscore rules.
-/

namespace TaskManager

/-- One row of the `tasks` table.  `due_date` is the nullable TEXT column
(`none` = SQL NULL); `completed` is the nullable INTEGER column of the
schema (`CREATE TABLE` gives it `DEFAULT 0` but no `NOT NULL`). -/
structure Row where
  id : Nat
  description : String
  due_date : Option String
  completed : Option Int
deriving DecidableEq, Repr

/-- The persistent state: the rows of the `tasks` table plus the
`sqlite_sequence` counter maintained for the AUTOINCREMENT key. -/
structure DB where
  rows : List Row
  seq : Nat
deriving DecidableEq, Repr

/-- The state of a freshly created database file. -/
def DB.init : DB := ⟨[], 0⟩

/-- Largest rowid currently in the table (0 when empty). -/
def maxId (rows : List Row) : Nat :=
  rows.foldr (fun r acc => max r.id acc) 0

/-- The rowid SQLite assigns to the next `INSERT` on an AUTOINCREMENT
table: one more than the larger of the stored sequence value and the
largest rowid present. -/
def newId (db : DB) : Nat :=
  max db.seq (maxId db.rows) + 1

/-- `create_table`: `CREATE TABLE IF NOT EXISTS` — no effect on the data
once the table exists (and the model always carries the table). -/
def create_table (db : DB) : DB := db

/-- `add_task(description, due_date=None)`: runs
`INSERT INTO tasks (description, due_date) VALUES (?, ?)`, so `completed`
takes the schema default `0`.  The Python function has no `return`
statement, hence its value is `None` (`none` here), not the new id. -/
def add_task (db : DB) (description : String) (due_date : Option String) :
    DB × Option Nat :=
  (⟨db.rows ++ [⟨newId db, description, due_date, some 0⟩], newId db⟩, none)

/-- `complete_task(task_id)`: `UPDATE tasks SET completed = 1 WHERE id = ?`.
The second component is `cursor.rowcount`: the number of rows matched by
the `WHERE` clause (SQLite counts a matched row even when `completed` was
already 1). -/
def complete_task (db : DB) (task_id : Nat) : DB × Nat :=
  (⟨db.rows.map (fun r => if r.id = task_id then { r with completed := some 1 } else r),
    db.seq⟩,
   db.rows.countP (fun r => decide (r.id = task_id)))

/-- `delete_task(task_id)`: `DELETE FROM tasks WHERE id = ?`; the second
component is `cursor.rowcount`, the number of deleted rows. -/
def delete_task (db : DB) (task_id : Nat) : DB × Nat :=
  (⟨db.rows.filter (fun r => decide (r.id ≠ task_id)), db.seq⟩,
   db.rows.countP (fun r => decide (r.id = task_id)))

/-- SQL `ASC` comparison on the nullable TEXT column: `NULL` sorts before
every string, strings compare by the BINARY collation. -/
def optStrLe (a b : Option String) : Bool :=
  match a, b with
  | none, _ => true
  | some _, none => false
  | some x, some y => decide (x ≤ y)

/-- SQL `ASC` comparison on the nullable INTEGER column: `NULL` first. -/
def optIntLe (a b : Option Int) : Bool :=
  match a, b with
  | none, _ => true
  | some _, none => false
  | some x, some y => decide (x ≤ y)

/-- `ORDER BY due_date ASC, id ASC`. -/
def dueIdLe (r s : Row) : Bool :=
  if r.due_date = s.due_date then decide (r.id ≤ s.id)
  else optStrLe r.due_date s.due_date

/-- `ORDER BY completed ASC, due_date ASC, id ASC`. -/
def completedDueIdLe (r s : Row) : Bool :=
  if r.completed = s.completed then dueIdLe r s
  else optIntLe r.completed s.completed

/-- The row sequence fetched by `view_tasks(show_completed)`:
`SELECT ... ORDER BY completed ASC, due_date ASC, id ASC` when
`show_completed`, otherwise
`SELECT ... WHERE completed = 0 ORDER BY due_date ASC, id ASC`
(SQL `completed = 0` is false on NULL). -/
def view_tasks (db : DB) (show_completed : Bool) : List Row :=
  if show_completed then
    db.rows.mergeSort completedDueIdLe
  else
    (db.rows.filter (fun r => decide (r.completed = some 0))).mergeSort dueIdLe

/-- A storage operation issued through the menu loop. -/
inductive Op where
  | addOp (description : String) (due_date : Option String)
  | completeOp (task_id : Nat)
  | deleteOp (task_id : Nat)
  | createTableOp
deriving DecidableEq, Repr

/-- State effect of one operation. -/
def applyOp (db : DB) : Op → DB
  | .addOp d due => (add_task db d due).1
  | .completeOp i => (complete_task db i).1
  | .deleteOp i => (delete_task db i).1
  | .createTableOp => create_table db

/-- Running a sequence of operations. -/
def runOps (db : DB) : List Op → DB
  | [] => db
  | op :: ops => runOps (applyOp db op) ops

/-- The ids handed out by the `addOp` steps of a run, in order. -/
def assignedFrom (db : DB) : List Op → List Nat
  | [] => []
  | .addOp d due :: ops => newId db :: assignedFrom (applyOp db (.addOp d due)) ops
  | .completeOp i :: ops => assignedFrom (applyOp db (.completeOp i)) ops
  | .deleteOp i :: ops => assignedFrom (applyOp db (.deleteOp i)) ops
  | .createTableOp :: ops => assignedFrom (applyOp db .createTableOp) ops

/-- States reachable from a fresh database. -/
def Reachable (db : DB) : Prop :=
  ∃ ops, runOps DB.init ops = db

/-- Declarative form of "due date ascending with absent dates first, then
id ascending" between two rows. -/
def DueOrder (r s : Row) : Prop :=
  (r.due_date = none ∧ s.due_date ≠ none) ∨
  (∃ x y, r.due_date = some x ∧ s.due_date = some y ∧ x < y) ∨
  (r.due_date = s.due_date ∧ r.id ≤ s.id)

/-- Declarative form of "completed ascending (pending before done), then
due date ascending with absent first, then id ascending". -/
def CompletedOrder (r s : Row) : Prop :=
  (r.completed = none ∧ s.completed ≠ none) ∨
  (∃ x y, r.completed = some x ∧ s.completed = some y ∧ x < y) ∨
  (r.completed = s.completed ∧ DueOrder r s)

/-- Python `str.strip()` on a character list: drop leading and trailing
whitespace. -/
def stripChars (cs : List Char) : List Char :=
  ((cs.dropWhile Char.isWhitespace).reverse.dropWhile Char.isWhitespace).reverse

/-- Python `str.strip()` (ASCII fragment). -/
def pyStrip (s : String) : String :=
  ⟨stripChars s.data⟩

/-- Splitting a character list at every `-`, as the two literal hyphens of
the format string cut the input. -/
def splitOnDash : List Char → List (List Char)
  | [] => [[]]
  | c :: cs =>
    if c = '-' then [] :: splitOnDash cs
    else
      match splitOnDash cs with
      | [] => [[c]]
      | p :: ps => (c :: p) :: ps

/-- Inverse view of `splitOnDash`: re-joining parts with `-`. -/
def joinDash : List (List Char) → List Char
  | [] => []
  | [p] => p
  | p :: ps => p ++ '-' :: joinDash ps

/-- Decimal value of a digit string. -/
def natOfDigits (cs : List Char) : Nat :=
  cs.foldl (fun acc c => 10 * acc + (c.toNat - 48)) 0

/-- The `%Y` directive of `_strptime`: exactly four digits. -/
def matchYear (cs : List Char) : Option Nat :=
  if cs.length = 4 ∧ cs.all Char.isDigit then some (natOfDigits cs) else none

/-- The `%m` directive of `_strptime`: one or two digits valued 1..12. -/
def matchMonth (cs : List Char) : Option Nat :=
  if (cs.length = 1 ∨ cs.length = 2) ∧ cs.all Char.isDigit ∧
      1 ≤ natOfDigits cs ∧ natOfDigits cs ≤ 12 then
    some (natOfDigits cs)
  else none

/-- The `%d` directive of `_strptime`: one or two digits valued 1..31. -/
def matchDay (cs : List Char) : Option Nat :=
  if (cs.length = 1 ∨ cs.length = 2) ∧ cs.all Char.isDigit ∧
      1 ≤ natOfDigits cs ∧ natOfDigits cs ≤ 31 then
    some (natOfDigits cs)
  else none

/-- Gregorian leap-year rule used by `datetime`. -/
def isLeapYear (y : Nat) : Bool :=
  (y % 4 = 0 ∧ y % 100 ≠ 0) ∨ y % 400 = 0

/-- Days in a month, as `datetime` validates the day. -/
def daysInMonth (y m : Nat) : Nat :=
  if m = 2 then (if isLeapYear y then 29 else 28)
  else if m = 4 ∨ m = 6 ∨ m = 9 ∨ m = 11 then 30
  else 31

/-- `datetime.strptime(s, "%Y-%m-%d")` on ASCII input: the format regex
must consume the whole string, and the resulting numbers must form a real
calendar date with year at least `MINYEAR = 1` (four digits bound the year
by 9999 already). -/
def strptimeYMD (s : String) : Option (Nat × Nat × Nat) :=
  match splitOnDash s.data with
  | [ys, ms, ds] =>
    match matchYear ys, matchMonth ms, matchDay ds with
    | some y, some m, some d =>
      if 1 ≤ y ∧ d ≤ daysInMonth y m then some (y, m, d) else none
    | _, _, _ => none
  | _ => none

/-- One iteration of `get_valid_date_input`: the read line is stripped;
an empty result is accepted as "no due date" (`some none`), a line that
`strptime` parses is accepted and stored as typed (`some (some ...)`),
anything else is rejected (`none`) and the loop prompts again. -/
def dateInputStep (line : String) : Option (Option String) :=
  let date_str := pyStrip line
  if date_str = "" then some none
  else
    match strptimeYMD date_str with
    | some _ => some (some date_str)
    | none => none

/-- `get_valid_date_input` over the successive lines the user types:
the first accepted line determines the result; every rejected line is
answered by a re-prompt. -/
def get_valid_date_input : List String → Option (Option String)
  | [] => none
  | line :: rest =>
    match dateInputStep line with
    | some v => some v
    | none => get_valid_date_input rest

/-- The spec's "fixed YYYY-MM-DD format": exactly four digits, a hyphen,
two digits, a hyphen, two digits, forming a valid calendar date. -/
def isFixedYYYYMMDD (s : String) : Bool :=
  match s.data with
  | [y1, y2, y3, y4, '-', m1, m2, '-', d1, d2] =>
    ([y1, y2, y3, y4, m1, m2, d1, d2].all Char.isDigit) &&
    (let y := natOfDigits [y1, y2, y3, y4]
     let m := natOfDigits [m1, m2]
     let d := natOfDigits [d1, d2]
     decide (1 ≤ y ∧ 1 ≤ m ∧ m ≤ 12 ∧ 1 ≤ d ∧ d ≤ daysInMonth y m))
  | _ => false

/-- Declarative acceptance condition of the `%Y-%m-%d` parse. -/
def PyDateAccepted (s : String) : Prop :=
  ∃ ys ms ds,
    s.data = ys ++ '-' :: ms ++ '-' :: ds ∧
    ys.all Char.isDigit ∧ ms.all Char.isDigit ∧ ds.all Char.isDigit ∧
    ys.length = 4 ∧
    (ms.length = 1 ∨ ms.length = 2) ∧ (ds.length = 1 ∨ ds.length = 2) ∧
    1 ≤ natOfDigits ys ∧
    1 ≤ natOfDigits ms ∧ natOfDigits ms ≤ 12 ∧
    1 ≤ natOfDigits ds ∧ natOfDigits ds ≤ daysInMonth (natOfDigits ys) (natOfDigits ms)

/-- Digit-and-underscore tail of a Python integer literal, with the
running decimal value: an underscore must sit between two digits. -/
def pyDigitsUAux : List Char → Nat → Option Nat
  | [], acc => some acc
  | c :: cs, acc =>
    if c.isDigit then pyDigitsUAux cs (10 * acc + (c.toNat - 48))
    else if c = '_' then
      match cs with
      | [] => none
      | d :: cs2 =>
        if d.isDigit then pyDigitsUAux cs2 (10 * acc + (d.toNat - 48)) else none
    else none

/-- The digit part of `int(s)`: nonempty, starts with a digit, single
underscores only between digits. -/
def pyDigitsU : List Char → Option Nat
  | [] => none
  | c :: cs => if c.isDigit then pyDigitsUAux cs (c.toNat - 48) else none

/-- Python `int(s)` on ASCII input: surrounding whitespace is ignored, an
optional single sign precedes the digits. -/
def pyInt (s : String) : Option Int :=
  match stripChars s.data with
  | '+' :: rest => (pyDigitsU rest).map (fun n => (n : Int))
  | '-' :: rest => (pyDigitsU rest).map (fun n => -(n : Int))
  | cs => (pyDigitsU cs).map (fun n => (n : Int))

/-- One iteration of `get_valid_task_id_input`: strip the line, parse it
with `int`, reject (re-prompt) unless the value is positive. -/
def taskIdInputStep (line : String) : Option Int :=
  match pyInt (pyStrip line) with
  | none => none
  | some n => if n ≤ 0 then none else some n

/-- `get_valid_task_id_input` over the successive lines the user types. -/
def get_valid_task_id_input : List String → Option Int
  | [] => none
  | line :: rest =>
    match taskIdInputStep line with
    | some n => some n
    | none => get_valid_task_id_input rest

/-! ## Order lemmas for the `ORDER BY` comparators -/

theorem optStrLe_total (a b : Option String) : optStrLe a b = true ∨ optStrLe b a = true := by
  rcases a with _ | x
  · exact Or.inl rfl
  rcases b with _ | y
  · exact Or.inr rfl
  simp only [optStrLe, decide_eq_true_eq]
  exact le_total x y

theorem optStrLe_trans {a b c : Option String}
    (h1 : optStrLe a b = true) (h2 : optStrLe b c = true) : optStrLe a c = true := by
  rcases a with _ | x
  · rfl
  rcases b with _ | y
  · simp [optStrLe] at h1
  rcases c with _ | z
  · simp [optStrLe] at h2
  simp only [optStrLe, decide_eq_true_eq] at h1 h2 ⊢
  exact le_trans h1 h2

theorem optStrLe_antisymm {a b : Option String}
    (h1 : optStrLe a b = true) (h2 : optStrLe b a = true) : a = b := by
  rcases a with _ | x
  · rcases b with _ | y
    · rfl
    · simp [optStrLe] at h2
  rcases b with _ | y
  · simp [optStrLe] at h1
  simp only [optStrLe, decide_eq_true_eq] at h1 h2
  exact congrArg some (le_antisymm h1 h2)

theorem optIntLe_total (a b : Option Int) : optIntLe a b = true ∨ optIntLe b a = true := by
  rcases a with _ | x
  · exact Or.inl rfl
  rcases b with _ | y
  · exact Or.inr rfl
  simp only [optIntLe, decide_eq_true_eq]
  exact le_total x y

theorem optIntLe_trans {a b c : Option Int}
    (h1 : optIntLe a b = true) (h2 : optIntLe b c = true) : optIntLe a c = true := by
  rcases a with _ | x
  · rfl
  rcases b with _ | y
  · simp [optIntLe] at h1
  rcases c with _ | z
  · simp [optIntLe] at h2
  simp only [optIntLe, decide_eq_true_eq] at h1 h2 ⊢
  exact le_trans h1 h2

theorem optIntLe_antisymm {a b : Option Int}
    (h1 : optIntLe a b = true) (h2 : optIntLe b a = true) : a = b := by
  rcases a with _ | x
  · rcases b with _ | y
    · rfl
    · simp [optIntLe] at h2
  rcases b with _ | y
  · simp [optIntLe] at h1
  simp only [optIntLe, decide_eq_true_eq] at h1 h2
  exact congrArg some (le_antisymm h1 h2)

theorem dueIdLe_total (r s : Row) : dueIdLe r s = true ∨ dueIdLe s r = true := by
  unfold dueIdLe
  by_cases h : r.due_date = s.due_date
  · rw [if_pos h, if_pos h.symm]
    simp only [decide_eq_true_eq]
    exact Nat.le_total r.id s.id
  · rw [if_neg h, if_neg (fun e => h e.symm)]
    exact optStrLe_total _ _

theorem dueIdLe_trans {a b c : Row}
    (h1 : dueIdLe a b = true) (h2 : dueIdLe b c = true) : dueIdLe a c = true := by
  unfold dueIdLe at h1 h2 ⊢
  by_cases hab : a.due_date = b.due_date
  · by_cases hbc : b.due_date = c.due_date
    · rw [if_pos hab] at h1
      rw [if_pos hbc] at h2
      rw [if_pos (hab.trans hbc)]
      simp only [decide_eq_true_eq] at h1 h2 ⊢
      exact le_trans h1 h2
    · rw [if_neg hbc] at h2
      rw [if_neg (fun e => hbc (hab ▸ e)), hab]
      exact h2
  · by_cases hbc : b.due_date = c.due_date
    · rw [if_neg hab] at h1
      rw [if_neg (fun e => hab (e.trans hbc.symm)), ← hbc]
      exact h1
    · rw [if_neg hab] at h1
      rw [if_neg hbc] at h2
      by_cases hac : a.due_date = c.due_date
      · rw [← hac] at h2
        exact absurd (optStrLe_antisymm h1 h2) hab
      · rw [if_neg hac]
        exact optStrLe_trans h1 h2

theorem completedDueIdLe_total (r s : Row) :
    completedDueIdLe r s = true ∨ completedDueIdLe s r = true := by
  unfold completedDueIdLe
  by_cases h : r.completed = s.completed
  · rw [if_pos h, if_pos h.symm]
    exact dueIdLe_total r s
  · rw [if_neg h, if_neg (fun e => h e.symm)]
    exact optIntLe_total _ _

theorem completedDueIdLe_trans {a b c : Row}
    (h1 : completedDueIdLe a b = true) (h2 : completedDueIdLe b c = true) :
    completedDueIdLe a c = true := by
  unfold completedDueIdLe at h1 h2 ⊢
  by_cases hab : a.completed = b.completed
  · by_cases hbc : b.completed = c.completed
    · rw [if_pos hab] at h1
      rw [if_pos hbc] at h2
      rw [if_pos (hab.trans hbc)]
      exact dueIdLe_trans h1 h2
    · rw [if_neg hbc] at h2
      rw [if_neg (fun e => hbc (hab ▸ e)), hab]
      exact h2
  · by_cases hbc : b.completed = c.completed
    · rw [if_neg hab] at h1
      rw [if_neg (fun e => hab (e.trans hbc.symm)), ← hbc]
      exact h1
    · rw [if_neg hab] at h1
      rw [if_neg hbc] at h2
      by_cases hac : a.completed = c.completed
      · rw [← hac] at h2
        exact absurd (optIntLe_antisymm h1 h2) hab
      · rw [if_neg hac]
        exact optIntLe_trans h1 h2

theorem dueIdLe_total_bool (a b : Row) : dueIdLe a b || dueIdLe b a := by
  rcases dueIdLe_total a b with h | h <;> simp [h]

theorem completedDueIdLe_total_bool (a b : Row) :
    completedDueIdLe a b || completedDueIdLe b a := by
  rcases completedDueIdLe_total a b with h | h <;> simp [h]

theorem dueIdLe_DueOrder {r s : Row} (h : dueIdLe r s = true) : DueOrder r s := by
  unfold dueIdLe at h
  by_cases hd : r.due_date = s.due_date
  · rw [if_pos hd] at h
    simp only [decide_eq_true_eq] at h
    exact Or.inr (Or.inr ⟨hd, h⟩)
  · rw [if_neg hd] at h
    rcases hr : r.due_date with _ | x
    · rcases hs : s.due_date with _ | y
      · exact absurd (hr.trans hs.symm) hd
      · exact Or.inl ⟨hr, by simp [hs]⟩
    · rcases hs : s.due_date with _ | y
      · rw [hr, hs] at h
        simp [optStrLe] at h
      · rw [hr, hs] at h
        simp only [optStrLe, decide_eq_true_eq] at h
        refine Or.inr (Or.inl ⟨x, y, hr, hs, ?_⟩)
        exact lt_of_le_of_ne h (fun e => hd (by rw [hr, hs, e]))

theorem completedDueIdLe_CompletedOrder {r s : Row}
    (h : completedDueIdLe r s = true) : CompletedOrder r s := by
  unfold completedDueIdLe at h
  by_cases hc : r.completed = s.completed
  · rw [if_pos hc] at h
    exact Or.inr (Or.inr ⟨hc, dueIdLe_DueOrder h⟩)
  · rw [if_neg hc] at h
    rcases hr : r.completed with _ | x
    · rcases hs : s.completed with _ | y
      · exact absurd (hr.trans hs.symm) hc
      · exact Or.inl ⟨hr, by simp [hs]⟩
    · rcases hs : s.completed with _ | y
      · rw [hr, hs] at h
        simp [optIntLe] at h
      · rw [hr, hs] at h
        simp only [optIntLe, decide_eq_true_eq] at h
        refine Or.inr (Or.inl ⟨x, y, hr, hs, ?_⟩)
        exact lt_of_le_of_ne h (fun e => hc (by rw [hr, hs, e]))

theorem CompletedOrder_pending_first {r s : Row} (h : CompletedOrder r s) :
    ¬(r.completed = some 1 ∧ s.completed = some 0) := by
  rintro ⟨hr, hs⟩
  rcases h with ⟨h1, _⟩ | ⟨x, y, hx, hy, hlt⟩ | ⟨heq, _⟩
  · rw [hr] at h1
    cases h1
  · rw [hr] at hx
    rw [hs] at hy
    cases hx
    cases hy
    omega
  · rw [hr, hs] at heq
    cases heq

/-! ## Claims C3 and C4: the two `view_tasks` queries -/

/-- C3: `view_tasks` with `show_completed = false` returns exactly the rows
whose `completed` column equals 0 (in particular never a completed row),
ordered by due date ascending with absent dates first, then by id
ascending. -/
theorem view_tasks_pending_spec (db : DB) :
    (view_tasks db false).Perm (db.rows.filter (fun r => decide (r.completed = some 0))) ∧
    (∀ r ∈ view_tasks db false, r.completed = some 0 ∧ r.completed ≠ some 1) ∧
    (view_tasks db false).Pairwise DueOrder := by
  refine ⟨List.mergeSort_perm _ _, ?_, ?_⟩
  · intro r hr
    have hmem : r ∈ db.rows.filter (fun r => decide (r.completed = some 0)) :=
      List.mem_mergeSort.mp hr
    have h0 : r.completed = some 0 := by
      have := List.of_mem_filter hmem
      simpa using this
    refine ⟨h0, ?_⟩
    rw [h0]
    intro h
    cases h
  · refine List.Pairwise.imp (fun h => dueIdLe_DueOrder h) ?_
    exact @List.sorted_mergeSort Row dueIdLe
      (fun a b c h1 h2 => dueIdLe_trans h1 h2) dueIdLe_total_bool _

/-- Witness for C3 at a concrete store: the pending row is listed, the
completed row is not. -/
theorem view_tasks_pending_spec_witness :
    (view_tasks ⟨[⟨1, "a", none, some 1⟩, ⟨2, "b", none, some 0⟩], 2⟩ false).Perm
      [⟨2, "b", none, some 0⟩] ∧
    ((⟨2, "b", none, some 0⟩ : Row).completed = some 0 ∧
      (⟨2, "b", none, some 0⟩ : Row).completed ≠ some 1) := by
  have h := view_tasks_pending_spec ⟨[⟨1, "a", none, some 1⟩, ⟨2, "b", none, some 0⟩], 2⟩
  refine ⟨h.1, h.2.1 ⟨2, "b", none, some 0⟩ ?_⟩
  have hmem : (⟨2, "b", none, some 0⟩ : Row) ∈
      ([⟨1, "a", none, some 1⟩, ⟨2, "b", none, some 0⟩] : List Row).filter
        (fun r => decide (r.completed = some 0)) := by decide
  exact List.mem_mergeSort.mpr hmem

/-- C4: `view_tasks` with `show_completed = true` returns all rows, ordered
by completed ascending (in particular no completed row precedes a pending
one), then due date ascending with absent dates first, then id ascending;
an empty store yields the empty list. -/
theorem view_tasks_all_spec (db : DB) :
    (view_tasks db true).Perm db.rows ∧
    (view_tasks db true).Pairwise CompletedOrder ∧
    (view_tasks db true).Pairwise
      (fun r s => ¬(r.completed = some 1 ∧ s.completed = some 0)) ∧
    (db.rows = [] → view_tasks db true = []) := by
  have hsorted : (view_tasks db true).Pairwise (fun a b => completedDueIdLe a b = true) :=
    @List.sorted_mergeSort Row completedDueIdLe
      (fun a b c h1 h2 => completedDueIdLe_trans h1 h2) completedDueIdLe_total_bool _
  refine ⟨List.mergeSort_perm _ _, ?_, ?_, ?_⟩
  · exact hsorted.imp (fun h => completedDueIdLe_CompletedOrder h)
  · exact hsorted.imp
      (fun h => CompletedOrder_pending_first (completedDueIdLe_CompletedOrder h))
  · intro h
    show db.rows.mergeSort completedDueIdLe = []
    rw [h]
    exact List.mergeSort_nil

/-- Witness for C4 at a concrete store: the full listing is a permutation
of the rows, and the empty store lists nothing. -/
theorem view_tasks_all_spec_witness :
    (view_tasks ⟨[⟨1, "a", none, some 1⟩, ⟨2, "b", none, some 0⟩], 2⟩ true).Perm
      [⟨1, "a", none, some 1⟩, ⟨2, "b", none, some 0⟩] ∧
    view_tasks ⟨[], 0⟩ true = [] := by
  refine ⟨(view_tasks_all_spec ⟨[⟨1, "a", none, some 1⟩, ⟨2, "b", none, some 0⟩], 2⟩).1, ?_⟩
  exact (view_tasks_all_spec ⟨[], 0⟩).2.2.2 rfl

/-! ## Claims C1, C2, C6, C7: the row-level operations -/

theorem le_maxId {r : Row} {rows : List Row} (h : r ∈ rows) : r.id ≤ maxId rows := by
  induction rows with
  | nil => cases h
  | cons s rows ih =>
    rcases List.mem_cons.mp h with h1 | h1
    · rw [h1]
      exact Nat.le_max_left _ _
    · exact le_trans (ih h1) (Nat.le_max_right _ _)

/-- C1 counterexample: completing a task whose `completed` flag is already
1 reports one affected row (SQLite counts the matched row), not the
claimed no-match result of zero rows. -/
theorem complete_task_already_done_counterexample :
    (complete_task ⟨[⟨1, "a", none, some 1⟩], 1⟩ 1).2 = 1 ∧
    ¬((complete_task ⟨[⟨1, "a", none, some 1⟩], 1⟩ 1).2 = 0) := by
  decide

/-- C1 (amended): `complete_task` reports zero affected rows exactly when
no row carries the given id, and a positive count exactly when one does —
whether or not that row was already completed; when no row matches, or
every matching row is already completed, the storage content is
unchanged. -/
theorem complete_task_spec (db : DB) (i : Nat) :
    ((complete_task db i).2 = 0 ↔ ∀ r ∈ db.rows, r.id ≠ i) ∧
    ((complete_task db i).2 ≠ 0 ↔ ∃ r ∈ db.rows, r.id = i) ∧
    ((∀ r ∈ db.rows, r.id ≠ i) → (complete_task db i).1 = db) ∧
    ((∀ r ∈ db.rows, r.id = i → r.completed = some 1) → (complete_task db i).1 = db) := by
  obtain ⟨rows, seq⟩ := db
  refine ⟨?_, ?_, ?_, ?_⟩
  · show rows.countP (fun r => decide (r.id = i)) = 0 ↔ _
    rw [List.countP_eq_zero]
    simp
  · show (rows.countP (fun r => decide (r.id = i)) ≠ 0) ↔ _
    rw [← Nat.pos_iff_ne_zero, List.countP_pos_iff]
    simp
  · intro h
    show DB.mk (rows.map _) seq = DB.mk rows seq
    have h2 : ∀ r ∈ rows,
        (if r.id = i then { r with completed := some 1 } else r) = id r := by
      intro r hr
      rw [if_neg (h r hr)]
      rfl
    rw [List.map_congr_left h2, List.map_id]
  · intro h
    show DB.mk (rows.map _) seq = DB.mk rows seq
    have h2 : ∀ r ∈ rows,
        (if r.id = i then { r with completed := some 1 } else r) = id r := by
      intro r hr
      by_cases hid : r.id = i
      · rw [if_pos hid]
        obtain ⟨rid, rdesc, rdue, rc⟩ := r
        have h3 := h _ hr hid
        simp only at h3
        rw [h3]
        rfl
      · rw [if_neg hid]
        rfl
    rw [List.map_congr_left h2, List.map_id]

/-- Witness for C1 (amended) at a concrete store. -/
theorem complete_task_spec_witness :
    (complete_task ⟨[⟨1, "a", none, some 1⟩], 1⟩ 2).2 = 0 ∧
    (complete_task ⟨[⟨1, "a", none, some 1⟩], 1⟩ 2).1 = ⟨[⟨1, "a", none, some 1⟩], 1⟩ ∧
    (complete_task ⟨[⟨1, "a", none, some 1⟩], 1⟩ 1).1 = ⟨[⟨1, "a", none, some 1⟩], 1⟩ := by
  have h2 := complete_task_spec ⟨[⟨1, "a", none, some 1⟩], 1⟩ 2
  have h1 := complete_task_spec ⟨[⟨1, "a", none, some 1⟩], 1⟩ 1
  refine ⟨h2.1.mpr (by decide), h2.2.2.1 (by decide), h1.2.2.2 (by decide)⟩

/-- C2 counterexample: `add_task` assigns id 1 to the first inserted row
but returns `None` (the Python function has no `return` statement), so the
newly assigned id is not returned to the caller. -/
theorem add_task_returns_none_counterexample :
    ((add_task DB.init "Buy milk" (some "2025-12-31")).1.rows.map Row.id = [1]) ∧
    (add_task DB.init "Buy milk" (some "2025-12-31")).2 = none ∧
    ¬((add_task DB.init "Buy milk" (some "2025-12-31")).2 = some 1) := by
  decide

/-- C2 (amended): `add_task` appends exactly one new row carrying the given
description and due date with `completed = 0` and a fresh id strictly
greater than every id in the store, and returns `None` rather than the new
id. -/
theorem add_task_spec (db : DB) (d : String) (due : Option String) :
    (add_task db d due).1.rows = db.rows ++ [⟨newId db, d, due, some 0⟩] ∧
    (add_task db d due).2 = none ∧
    (add_task db d due).1.seq = newId db ∧
    (∀ r ∈ db.rows, r.id < newId db) := by
  refine ⟨rfl, rfl, rfl, ?_⟩
  intro r hr
  have h1 : r.id ≤ maxId db.rows := le_maxId hr
  have h2 : maxId db.rows ≤ max db.seq (maxId db.rows) := Nat.le_max_right _ _
  unfold newId
  omega

/-- Witness for C2 (amended) at a concrete store. -/
theorem add_task_spec_witness :
    (add_task ⟨[⟨1, "a", none, some 0⟩], 1⟩ "b" none).1.rows =
      [⟨1, "a", none, some 0⟩, ⟨2, "b", none, some 0⟩] ∧
    (add_task ⟨[⟨1, "a", none, some 0⟩], 1⟩ "b" none).2 = none ∧
    (1 : Nat) < newId ⟨[⟨1, "a", none, some 0⟩], 1⟩ := by
  have h := add_task_spec ⟨[⟨1, "a", none, some 0⟩], 1⟩ "b" none
  refine ⟨?_, h.2.1, ?_⟩
  · rw [h.1]
    decide
  · exact h.2.2.2 ⟨1, "a", none, some 0⟩ (by decide)

/-- C6: `delete_task` removes exactly the rows matching the id; it reports
a positive count exactly when a matching row existed; after the deletion a
`complete_task` or `delete_task` on the same id reports no-match; deleting
a nonexistent id reports no-match and leaves the store unchanged. -/
theorem delete_task_spec (db : DB) (i : Nat) :
    ((delete_task db i).1.rows = db.rows.filter (fun r => decide (r.id ≠ i))) ∧
    ((delete_task db i).2 ≠ 0 ↔ ∃ r ∈ db.rows, r.id = i) ∧
    ((complete_task (delete_task db i).1 i).2 = 0) ∧
    ((delete_task (delete_task db i).1 i).2 = 0) ∧
    ((∀ r ∈ db.rows, r.id ≠ i) → (delete_task db i).2 = 0 ∧ (delete_task db i).1 = db) := by
  obtain ⟨rows, seq⟩ := db
  have hgone : ∀ r ∈ rows.filter (fun r => decide (r.id ≠ i)), ¬(decide (r.id = i) = true) := by
    intro r hr
    have h1 := List.of_mem_filter hr
    simpa using h1
  refine ⟨rfl, ?_, ?_, ?_, ?_⟩
  · show (rows.countP (fun r => decide (r.id = i)) ≠ 0) ↔ _
    rw [← Nat.pos_iff_ne_zero, List.countP_pos_iff]
    simp
  · show (rows.filter _).countP (fun r => decide (r.id = i)) = 0
    rw [List.countP_eq_zero]
    exact hgone
  · show (rows.filter _).countP (fun r => decide (r.id = i)) = 0
    rw [List.countP_eq_zero]
    exact hgone
  · intro h
    refine ⟨?_, ?_⟩
    · show rows.countP (fun r => decide (r.id = i)) = 0
      rw [List.countP_eq_zero]
      intro r hr
      simpa using h r hr
    · show DB.mk (rows.filter _) seq = DB.mk rows seq
      rw [List.filter_eq_self.mpr (fun r hr => by simpa using h r hr)]

/-- Witness for C6 at a concrete store. -/
theorem delete_task_spec_witness :
    (delete_task ⟨[⟨1, "a", none, some 0⟩], 1⟩ 1).2 ≠ 0 ∧
    (complete_task (delete_task ⟨[⟨1, "a", none, some 0⟩], 1⟩ 1).1 1).2 = 0 ∧
    (delete_task ⟨[⟨1, "a", none, some 0⟩], 1⟩ 2).1 = ⟨[⟨1, "a", none, some 0⟩], 1⟩ := by
  have h1 := delete_task_spec ⟨[⟨1, "a", none, some 0⟩], 1⟩ 1
  have h2 := delete_task_spec ⟨[⟨1, "a", none, some 0⟩], 1⟩ 2
  refine ⟨h1.2.1.mpr ⟨⟨1, "a", none, some 0⟩, by decide, rfl⟩, h1.2.2.1, ?_⟩
  exact (h2.2.2.2.2 (by decide)).2

/-- C7: `complete_task` changes at most the `completed` field — the id,
description and due date of every row survive positionally, and rows not
matching the id survive unchanged; no other operation mutates an existing
row: `add_task` keeps every existing row, `delete_task` only ever removes
rows, and `create_table` is the identity on an existing store. -/
theorem complete_task_frame (db : DB) (i : Nat) (d : String) (due : Option String) :
    ((complete_task db i).1.rows.map (fun r => (r.id, r.description, r.due_date)) =
      db.rows.map (fun r => (r.id, r.description, r.due_date))) ∧
    (∀ r ∈ db.rows, r.id ≠ i → r ∈ (complete_task db i).1.rows) ∧
    (∀ r ∈ db.rows, r.id = i → (⟨r.id, r.description, r.due_date, some 1⟩ : Row) ∈
      (complete_task db i).1.rows) ∧
    (∀ r ∈ db.rows, r ∈ (add_task db d due).1.rows) ∧
    (∀ r ∈ (delete_task db i).1.rows, r ∈ db.rows) ∧
    create_table db = db := by
  refine ⟨?_, ?_, ?_, ?_, ?_, rfl⟩
  · show (db.rows.map _).map _ = _
    rw [List.map_map]
    refine List.map_congr_left ?_
    intro r hr
    by_cases hid : r.id = i
    · rw [Function.comp_apply, if_pos hid]
    · rw [Function.comp_apply, if_neg hid]
  · intro r hr hid
    refine List.mem_map.mpr ⟨r, hr, ?_⟩
    rw [if_neg hid]
  · intro r hr hid
    refine List.mem_map.mpr ⟨r, hr, ?_⟩
    rw [if_pos hid]
  · intro r hr
    exact List.mem_append_left _ hr
  · intro r hr
    exact List.mem_of_mem_filter hr

/-- Witness for C7 at a concrete store. -/
theorem complete_task_frame_witness :
    ((complete_task ⟨[⟨1, "a", some "2025-01-01", some 0⟩], 1⟩ 1).1.rows.map
        (fun r => (r.id, r.description, r.due_date)) =
      [(1, "a", some "2025-01-01")]) ∧
    ((⟨1, "a", some "2025-01-01", some 1⟩ : Row) ∈
      (complete_task ⟨[⟨1, "a", some "2025-01-01", some 0⟩], 1⟩ 1).1.rows) := by
  have h := complete_task_frame ⟨[⟨1, "a", some "2025-01-01", some 0⟩], 1⟩ 1 "b" none
  refine ⟨h.1, ?_⟩
  exact h.2.2.1 ⟨1, "a", some "2025-01-01", some 0⟩ (by decide) rfl

/-! ## Claims C5 and C10: invariants along operation sequences -/

theorem seq_le_applyOp (db : DB) (op : Op) : db.seq ≤ (applyOp db op).seq := by
  cases op with
  | addOp d due =>
    show db.seq ≤ newId db
    exact Nat.le_succ_of_le (Nat.le_max_left _ _)
  | completeOp i => exact le_refl _
  | deleteOp i => exact le_refl _
  | createTableOp => exact le_refl _

theorem lt_of_mem_assignedFrom {db : DB} {ops : List Op} :
    ∀ x ∈ assignedFrom db ops, db.seq < x := by
  induction ops generalizing db with
  | nil =>
    intro x hx
    cases hx
  | cons op ops ih =>
    intro x hx
    have step : ∀ op2, x ∈ assignedFrom (applyOp db op2) ops → db.seq < x := by
      intro op2 h
      exact lt_of_le_of_lt (seq_le_applyOp db op2) (ih _ h)
    cases op with
    | addOp d due =>
      rw [assignedFrom] at hx
      rcases List.mem_cons.mp hx with h | h
      · rw [h]
        exact Nat.lt_succ_of_le (Nat.le_max_left _ _)
      · exact step _ h
    | completeOp i => exact step _ hx
    | deleteOp i => exact step _ hx
    | createTableOp => exact step _ hx

theorem pairwise_assignedFrom (db : DB) (ops : List Op) :
    (assignedFrom db ops).Pairwise (fun a b => a < b) := by
  induction ops generalizing db with
  | nil => exact List.Pairwise.nil
  | cons op ops ih =>
    cases op with
    | addOp d due =>
      rw [assignedFrom]
      refine List.Pairwise.cons ?_ (ih _)
      intro x hx
      have h1 := lt_of_mem_assignedFrom x hx
      have h2 : (applyOp db (.addOp d due)).seq = newId db := rfl
      rw [h2] at h1
      exact h1
    | completeOp i =>
      rw [assignedFrom]
      exact ih _
    | deleteOp i =>
      rw [assignedFrom]
      exact ih _
    | createTableOp =>
      rw [assignedFrom]
      exact ih _

/-- C5: along any sequence of operations from the empty store, the ids
handed out by the insertions are strictly increasing in order of
assignment — each new id exceeds every previously assigned id, so an id is
never reassigned (deletions never shrink the sequence counter) and the
assigned ids are pairwise distinct. -/
theorem assigned_ids_monotone (ops : List Op) :
    (assignedFrom DB.init ops).Pairwise (fun a b => a < b) ∧
    (assignedFrom DB.init ops).Nodup := by
  refine ⟨pairwise_assignedFrom DB.init ops, ?_⟩
  exact (pairwise_assignedFrom DB.init ops).imp (fun h => Nat.ne_of_lt h)

theorem completed_ok_applyOp {db : DB}
    (h : ∀ r ∈ db.rows, r.completed = some 0 ∨ r.completed = some 1) (op : Op) :
    ∀ r ∈ (applyOp db op).rows, r.completed = some 0 ∨ r.completed = some 1 := by
  cases op with
  | addOp d due =>
    intro r hr
    rcases List.mem_append.mp hr with h1 | h1
    · exact h r h1
    · rw [List.mem_singleton.mp h1]
      exact Or.inl rfl
  | completeOp i =>
    intro r hr
    rcases List.mem_map.mp hr with ⟨s, hs, hmap⟩
    by_cases hid : s.id = i
    · rw [if_pos hid] at hmap
      rw [← hmap]
      exact Or.inr rfl
    · rw [if_neg hid] at hmap
      rw [← hmap]
      exact h s hs
  | deleteOp i =>
    intro r hr
    exact h r (List.mem_of_mem_filter hr)
  | createTableOp => exact h

theorem completed_ok_runOps (db : DB)
    (h : ∀ r ∈ db.rows, r.completed = some 0 ∨ r.completed = some 1) (ops : List Op) :
    ∀ r ∈ (runOps db ops).rows, r.completed = some 0 ∨ r.completed = some 1 := by
  induction ops generalizing db with
  | nil => exact h
  | cons op ops ih => exact ih _ (completed_ok_applyOp h op)

/-- C10: in every state reachable from the empty store, the `completed`
column of every row is 0 or 1 and in particular never NULL — insertion
leaves the column to its schema default 0 and the only update writes 1,
even though the schema puts no NOT NULL constraint on the column. -/
theorem reachable_completed_zero_or_one (db : DB) (h : Reachable db) :
    ∀ r ∈ db.rows, (r.completed = some 0 ∨ r.completed = some 1) ∧ r.completed ≠ none := by
  rcases h with ⟨ops, hops⟩
  intro r hr
  rw [← hops] at hr
  have h1 := completed_ok_runOps DB.init (by intro s hs; cases hs) ops r hr
  refine ⟨h1, ?_⟩
  rcases h1 with h2 | h2 <;> rw [h2] <;> intro h3 <;> cases h3

/-- Witness for C10 at a concrete reachable store: after one insertion and
one completion the single row carries `completed = 1`. -/
theorem reachable_completed_zero_or_one_witness :
    ((⟨1, "a", none, some 1⟩ : Row).completed = some 0 ∨
      (⟨1, "a", none, some 1⟩ : Row).completed = some 1) ∧
    (⟨1, "a", none, some 1⟩ : Row).completed ≠ none :=
  reachable_completed_zero_or_one
    (runOps DB.init [Op.addOp "a" none, Op.completeOp 1])
    ⟨[Op.addOp "a" none, Op.completeOp 1], rfl⟩
    ⟨1, "a", none, some 1⟩ (by decide)

/-! ## Claim C8: the date validator -/

theorem splitOnDash_ne_nil (cs : List Char) : splitOnDash cs ≠ [] := by
  cases cs with
  | nil => simp [splitOnDash]
  | cons c cs =>
    rw [splitOnDash]
    by_cases h : c = '-'
    · rw [if_pos h]
      simp
    · rw [if_neg h]
      cases hs : splitOnDash cs <;> simp

theorem joinDash_cons_cons (c : Char) (p : List Char) (ps : List (List Char)) :
    joinDash ((c :: p) :: ps) = c :: joinDash (p :: ps) := by
  cases ps <;> rfl

theorem joinDash_splitOnDash (cs : List Char) : joinDash (splitOnDash cs) = cs := by
  induction cs with
  | nil => rfl
  | cons c cs ih =>
    rw [splitOnDash]
    by_cases h : c = '-'
    · rw [if_pos h, h]
      cases hs : splitOnDash cs with
      | nil => exact absurd hs (splitOnDash_ne_nil cs)
      | cons p ps =>
        rw [hs] at ih
        show ('-' : Char) :: joinDash (p :: ps) = ('-' : Char) :: cs
        rw [ih]
    · rw [if_neg h]
      cases hs : splitOnDash cs with
      | nil => exact absurd hs (splitOnDash_ne_nil cs)
      | cons p ps =>
        rw [hs] at ih
        show joinDash ((c :: p) :: ps) = c :: cs
        rw [joinDash_cons_cons, ih]

theorem splitOnDash_no_dash {a : List Char} (h : ('-') ∉ a) : splitOnDash a = [a] := by
  induction a with
  | nil => rfl
  | cons c cs ih =>
    have hc : ¬(c = '-') := fun e => h (e ▸ List.mem_cons_self c cs)
    rw [splitOnDash, if_neg hc, ih (fun hm => h (List.mem_cons_of_mem c hm))]

theorem splitOnDash_append {a : List Char} (rest : List Char) (h : ('-') ∉ a) :
    splitOnDash (a ++ '-' :: rest) = a :: splitOnDash rest := by
  induction a with
  | nil =>
    show splitOnDash ('-' :: rest) = [] :: splitOnDash rest
    rw [splitOnDash, if_pos rfl]
  | cons c cs ih =>
    have hc : ¬(c = '-') := fun e => h (e ▸ List.mem_cons_self c cs)
    show splitOnDash (c :: (cs ++ '-' :: rest)) = (c :: cs) :: splitOnDash rest
    rw [splitOnDash, if_neg hc, ih (fun hm => h (List.mem_cons_of_mem c hm))]

theorem no_dash_of_digits {cs : List Char} (h : cs.all Char.isDigit = true) :
    ('-') ∉ cs := by
  intro hm
  have h2 := List.all_eq_true.mp h _ hm
  exact absurd h2 (by decide)

theorem daysInMonth_le_31 (y m : Nat) : daysInMonth y m ≤ 31 := by
  unfold daysInMonth
  split_ifs <;> omega

theorem joinDash_three (a b c : List Char) :
    joinDash [a, b, c] = a ++ '-' :: b ++ '-' :: c := by
  show a ++ '-' :: joinDash [b, c] = _
  simp [joinDash]

theorem strptimeYMD_eq_of_split (s : String) (ys ms ds : List Char)
    (h : splitOnDash s.data = [ys, ms, ds]) :
    strptimeYMD s =
      (match matchYear ys, matchMonth ms, matchDay ds with
        | some y, some m, some d =>
          if 1 ≤ y ∧ d ≤ daysInMonth y m then some (y, m, d) else none
        | _, _, _ => none) := by
  unfold strptimeYMD
  rw [h]

theorem strptimeYMD_isSome_iff (s : String) :
    (strptimeYMD s).isSome = true ↔ PyDateAccepted s := by
  constructor
  · intro h
    rcases hsplit : splitOnDash s.data with _ | ⟨ys, _ | ⟨ms, _ | ⟨ds, _ | ⟨p, rest4⟩⟩⟩⟩
    · have h0 : strptimeYMD s = none := by unfold strptimeYMD; rw [hsplit]
      rw [h0] at h
      simp at h
    · have h0 : strptimeYMD s = none := by unfold strptimeYMD; rw [hsplit]
      rw [h0] at h
      simp at h
    · have h0 : strptimeYMD s = none := by unfold strptimeYMD; rw [hsplit]
      rw [h0] at h
      simp at h
    swap
    · have h0 : strptimeYMD s = none := by unfold strptimeYMD; rw [hsplit]
      rw [h0] at h
      simp at h
    have hdata : s.data = ys ++ '-' :: ms ++ '-' :: ds := by
      have h1 := joinDash_splitOnDash s.data
      rw [hsplit] at h1
      exact h1.symm.trans (joinDash_three ys ms ds)
    rw [strptimeYMD_eq_of_split s ys ms ds hsplit] at h
    cases hy : matchYear ys with
    | none => rw [hy] at h; simp at h
    | some y =>
      cases hm : matchMonth ms with
      | none => rw [hy, hm] at h; simp at h
      | some m =>
        cases hd : matchDay ds with
        | none => rw [hy, hm, hd] at h; simp at h
        | some d =>
          rw [hy, hm, hd] at h
          simp only at h
          rcases Decidable.em (1 ≤ y ∧ d ≤ daysInMonth y m) with hcal | hcal
          swap
          · rw [if_neg hcal] at h
            simp at h
          unfold matchYear at hy
          unfold matchMonth at hm
          unfold matchDay at hd
          split_ifs at hy with hycond
          split_ifs at hm with hmcond
          split_ifs at hd with hdcond
          injection hy with hy2
          injection hm with hm2
          injection hd with hd2
          refine ⟨ys, ms, ds, hdata, hycond.2, hmcond.2.1, hdcond.2.1,
            hycond.1, hmcond.1, hdcond.1, ?_, hmcond.2.2.1, hmcond.2.2.2,
            hdcond.2.2.1, ?_⟩
          · rw [hy2]
            exact hcal.1
          · rw [hy2, hm2, hd2]
            exact hcal.2
  · rintro ⟨ys, ms, ds, hdata, hydig, hmdig, hddig, hylen, hmlen, hdlen,
      hy1, hm1, hm12, hd1, hdm⟩
    have hsplit : splitOnDash s.data = [ys, ms, ds] := by
      rw [hdata]
      have he : ys ++ '-' :: ms ++ '-' :: ds = ys ++ '-' :: (ms ++ '-' :: ds) := by
        simp
      rw [he, splitOnDash_append _ (no_dash_of_digits hydig),
        splitOnDash_append _ (no_dash_of_digits hmdig),
        splitOnDash_no_dash (no_dash_of_digits hddig)]
    unfold strptimeYMD
    rw [hsplit]
    show (match matchYear ys, matchMonth ms, matchDay ds with
      | some y, some m, some d =>
        if 1 ≤ y ∧ d ≤ daysInMonth y m then some (y, m, d) else none
      | _, _, _ => none).isSome = true
    unfold matchYear matchMonth matchDay
    rw [if_pos ⟨hylen, hydig⟩, if_pos ⟨hmlen, hmdig, hm1, hm12⟩,
      if_pos ⟨hdlen, hddig, hd1, le_trans hdm (daysInMonth_le_31 _ _)⟩]
    simp only
    rw [if_pos ⟨hy1, hdm⟩]
    rfl

/-- C8 counterexample: the validator accepts "2025-1-1" — Python's
`%Y-%m-%d` tolerates unpadded month and day — although that string is not
in the fixed zero-padded `YYYY-MM-DD` format, so the validator does not
accept exactly the empty string and fixed-format dates. -/
theorem date_validator_counterexample :
    dateInputStep "2025-1-1" = some (some "2025-1-1") ∧
    isFixedYYYYMMDD "2025-1-1" = false := by
  decide

/-- C8 (amended): the date prompt accepts the stripped input exactly when
it is empty (returned as "no due date") or parses under Python's
`%Y-%m-%d` — a four-digit year at least 1, a one- or two-digit month
1..12, a one- or two-digit day valid for that month and year; everything
else is rejected and re-prompted.  In particular "2025-13-01",
"31-12-2025" and "not-a-date" are rejected while "" and "2025-01-01" are
accepted (but the accepted set is wider than the fixed `YYYY-MM-DD`
format). -/
theorem date_validator_spec :
    (∀ line, dateInputStep line = some none ↔ pyStrip line = "") ∧
    (∀ line, (dateInputStep line).isSome = true ↔
      (pyStrip line = "" ∨ PyDateAccepted (pyStrip line))) ∧
    dateInputStep "2025-13-01" = none ∧
    dateInputStep "31-12-2025" = none ∧
    dateInputStep "not-a-date" = none ∧
    dateInputStep "" = some none ∧
    dateInputStep "2025-01-01" = some (some "2025-01-01") ∧
    (∀ line rest, dateInputStep line = none →
      get_valid_date_input (line :: rest) = get_valid_date_input rest) ∧
    (∀ line rest v, dateInputStep line = some v →
      get_valid_date_input (line :: rest) = some v) := by
  refine ⟨?_, ?_, by decide, by decide, by decide, by decide, by decide, ?_, ?_⟩
  · intro line
    unfold dateInputStep
    by_cases h : pyStrip line = ""
    · rw [if_pos h]
      simp [h]
    · rw [if_neg h]
      cases hp : strptimeYMD (pyStrip line) <;> simp [h]
  · intro line
    unfold dateInputStep
    by_cases h : pyStrip line = ""
    · rw [if_pos h]
      simp [h]
    · rw [if_neg h]
      rw [← strptimeYMD_isSome_iff]
      cases hp : strptimeYMD (pyStrip line) <;> simp [h, hp]
  · intro line rest h
    simp [get_valid_date_input, h]
  · intro line rest v h
    simp [get_valid_date_input, h]

/-- Witness for C8 (amended): a rejected line is re-prompted and the next
accepted line is returned. -/
theorem date_validator_spec_witness :
    get_valid_date_input ["31-12-2025", "2025-01-01"] = some (some "2025-01-01") := by
  obtain ⟨h1, h2, h3, h4, h5, h6, h7, h8, h9⟩ := date_validator_spec
  rw [h8 _ _ h4, h9 _ _ _ h7]

/-! ## Claim C9: the task-id validator -/

theorem pyDigitsUAux_digits (cs : List Char) (acc : Nat) (h : cs.all Char.isDigit = true) :
    pyDigitsUAux cs acc = some (cs.foldl (fun a c => 10 * a + (c.toNat - 48)) acc) := by
  induction cs generalizing acc with
  | nil => rfl
  | cons c cs ih =>
    rw [List.all_cons, Bool.and_eq_true] at h
    rw [pyDigitsUAux.eq_def]
    simp only [h.1, if_true, List.foldl_cons]
    exact ih _ h.2

theorem pyDigitsU_digits (cs : List Char) (h1 : cs ≠ []) (h2 : cs.all Char.isDigit = true) :
    pyDigitsU cs = some (natOfDigits cs) := by
  cases cs with
  | nil => exact absurd rfl h1
  | cons c cs =>
    rw [List.all_cons, Bool.and_eq_true] at h2
    rw [pyDigitsU, if_pos h2.1, pyDigitsUAux_digits _ _ h2.2]
    unfold natOfDigits
    rw [List.foldl_cons]
    norm_num

/-- C9: the task-id prompt accepts the stripped input line exactly when
Python's `int` parses it to a positive value, and then returns that parsed
value (for a plain digit string this is its decimal value); `0`, `-5` and
`abc` are rejected and re-prompted, `1` and `42` are accepted as the
integers 1 and 42. -/
theorem task_id_validator_spec :
    (∀ line n, taskIdInputStep line = some n ↔
      (pyInt (pyStrip line) = some n ∧ 0 < n)) ∧
    (∀ cs, cs ≠ [] → cs.all Char.isDigit = true → pyDigitsU cs = some (natOfDigits cs)) ∧
    taskIdInputStep "0" = none ∧
    taskIdInputStep "-5" = none ∧
    taskIdInputStep "abc" = none ∧
    taskIdInputStep "1" = some 1 ∧
    taskIdInputStep "42" = some 42 ∧
    (∀ line rest, taskIdInputStep line = none →
      get_valid_task_id_input (line :: rest) = get_valid_task_id_input rest) ∧
    (∀ line rest n, taskIdInputStep line = some n →
      get_valid_task_id_input (line :: rest) = some n) := by
  refine ⟨?_, pyDigitsU_digits, by decide, by decide, by decide, by decide, by decide,
    ?_, ?_⟩
  · intro line n
    unfold taskIdInputStep
    cases hp : pyInt (pyStrip line) with
    | none => simp
    | some m =>
      show (if m ≤ 0 then none else some m) = some n ↔ some m = some n ∧ 0 < n
      by_cases hm : m ≤ 0
      · rw [if_pos hm]
        constructor
        · intro h
          cases h
        · rintro ⟨he, hn⟩
          injection he with he2
          omega
      · rw [if_neg hm]
        constructor
        · intro h
          injection h with h2
          rw [h2] at hm ⊢
          exact ⟨rfl, by omega⟩
        · rintro ⟨he, hn⟩
          injection he with he2
          rw [he2]
  · intro line rest h
    simp [get_valid_task_id_input, h]
  · intro line rest n h
    simp [get_valid_task_id_input, h]

/-- Witness for C9: a rejected line is re-prompted and the next accepted
line returns its parsed value. -/
theorem task_id_validator_spec_witness :
    get_valid_task_id_input ["abc", "42"] = some 42 := by
  obtain ⟨h1, h2, h3, h4, h5, h6, h7, h8, h9⟩ := task_id_validator_spec
  rw [h8 _ _ h5, h9 _ _ _ h7]

end TaskManager
